import Mathlib

/-!
Verification development for the shannon chat-ops assistant.

Shallow embedding of the runtime coordination subsystems: the message
chunker, the authorization / rate-limit / sudo ledger, the cron scheduler
firing rule, the memory store upsert, the webhook validation handler, the
tool-use executor loop and the plan engine failure policy.  Text is
modelled as `List Char` (Python code points), wall-clock time as `Int`.
-/

namespace Shannon

/-- Text is modelled as a list of characters (Python code points). -/
abbrev Str := List Char

/-- The backtick character, written via its code point. -/
def btick : Char := Char.ofNat 96

/-- Characters that Python `str.strip()` and the regex class treat as
whitespace (ASCII range). -/
def pySpace (c : Char) : Bool :=
  c = ' ' || c = '\t' || c = '\n' || c = '\r' || c = Char.ofNat 11 || c = Char.ofNat 12

/-- Python `str.strip()`. -/
def pyStrip (s : Str) : Str :=
  ((s.dropWhile pySpace).reverse.dropWhile pySpace).reverse

/-- Truthiness of `p.strip()`: the stripped string is nonempty, i.e. some
character is not whitespace. -/
def hasNonSpace (s : Str) : Bool := s.any (fun c => !(pySpace c))

/-- Python `text.split()`: split on whitespace runs, dropping empty parts.
The accumulator holds the current word reversed. -/
def pyWordsAux : Str → Str → List Str
  | [], acc => if acc = [] then [] else [acc.reverse]
  | c :: rest, acc =>
    if pySpace c then
      if acc = [] then pyWordsAux rest [] else acc.reverse :: pyWordsAux rest []
    else pyWordsAux rest (c :: acc)

/-- Python `text.split()`. -/
def pyWords (s : Str) : List Str := pyWordsAux s []

/-- Python `block.split("\n")`: split at every newline, keeping empty parts. -/
def splitNl : Str → List Str
  | [] => [[]]
  | c :: rest =>
    match splitNl rest with
    | [] => [[c]]
    | h :: t => if c = '\n' then [] :: h :: t else (c :: h) :: t

/-- Python `"\n".join(lines)`. -/
def joinNl (ls : List Str) : Str := List.intercalate ['\n'] ls

/-- Split on runs of two or more newlines (the paragraph regex), with fuel.
Each recursive call consumes at least one character, so fuel `length + 1`
is always sufficient.  The accumulator holds the current part reversed. -/
def paraAux : Nat → Str → Str → List Str
  | 0, _, acc => [acc.reverse]
  | _ + 1, [], acc => [acc.reverse]
  | _ + 1, ['\n'], acc => [('\n' :: acc).reverse]
  | fuel + 1, '\n' :: '\n' :: rest, acc =>
    acc.reverse :: paraAux fuel (rest.dropWhile (· = '\n')) []
  | fuel + 1, c :: rest, acc => paraAux fuel rest (c :: acc)

/-- The paragraph split `re.split(r"\n\x7b2,\x7d", text)`. -/
def paraSplit (s : Str) : List Str := paraAux (s.length + 1) s []

/-- Split at maximal whitespace runs immediately preceded by a character
satisfying `punct` (the lookbehind regexes), with fuel.  The whitespace is
dropped; the accumulator holds the current part reversed. -/
def lookbehindAux (punct : Char → Bool) : Nat → Str → Str → List Str
  | 0, _, acc => [acc.reverse]
  | _ + 1, [], acc => [acc.reverse]
  | fuel + 1, c :: rest, acc =>
    match acc with
    | [] => lookbehindAux punct fuel rest (c :: acc)
    | p :: accTail =>
      if punct p && pySpace c then
        (p :: accTail).reverse ::
          lookbehindAux punct fuel ((c :: rest).dropWhile pySpace) []
      else lookbehindAux punct fuel rest (c :: (p :: accTail))

/-- Sentence-ending punctuation for the sentence regex. -/
def sentencePunct (c : Char) : Bool := c = '.' || c = '!' || c = '?'

/-- Clause punctuation for the clause regex. -/
def clausePunct (c : Char) : Bool := c = ',' || c = ';' || c = ':'

/-- The sentence split `re.split(r"(?<=[.!?])\s+", text)`. -/
def sentenceSplit (s : Str) : List Str := lookbehindAux sentencePunct (s.length + 1) s []

/-- The clause split `re.split(r"(?<=[,;:])\s+", text)`. -/
def clauseSplit (s : Str) : List Str := lookbehindAux clausePunct (s.length + 1) s []

/-- Whether the string begins with three backticks (Python
`segment.startswith("\x60\x60\x60")`). -/
def isFence : Str → Bool
  | c1 :: c2 :: c3 :: _ => c1 = btick && c2 = btick && c3 = btick
  | _ => false

/-- Index of the earliest occurrence of a triple backtick. -/
def findFence : Str → Option Nat
  | [] => none
  | c :: rest => if isFence (c :: rest) then some 0 else (findFence rest).map (· + 1)

/-- The code-block regex split: lazy fenced blocks become their own parts,
the surrounding text the others.  Each recursive call consumes at least six
characters, so fuel `length + 1` is sufficient. -/
def codeSplitAux : Nat → Str → List Str
  | 0, s => [s]
  | fuel + 1, s =>
    match findFence s with
    | none => [s]
    | some i =>
      match findFence (s.drop (i + 3)) with
      | none => [s]
      | some j =>
        s.take i :: (s.drop i).take (j + 6) :: codeSplitAux fuel (s.drop (i + j + 6))

/-- `_split_preserving_code`: regex split, then drop blank parts. -/
def split_preserving_code (s : Str) : List Str :=
  (codeSplitAux (s.length + 1) s).filter hasNonSpace

/-- One step of the `_split_by_words` loop. -/
def wordsStep (limit : Nat) (st : List Str × Str) (word : Str) : List Str × Str :=
  let candidate := if st.2 = [] then word else st.2 ++ ' ' :: word
  if candidate.length ≤ limit then (st.1, candidate)
  else
    ((if st.2 = [] then st.1 else st.1 ++ [st.2]),
      if word.length ≤ limit then word else word.take limit)

/-- `_split_by_words`: last-resort split by word boundaries; a word longer
than the limit is hard-sliced to `word[:limit]`. -/
def split_by_words (text : Str) (limit : Nat) : List Str :=
  let st := (pyWords text).foldl (wordsStep limit) ([], [])
  if st.2 = [] then st.1 else st.1 ++ [st.2]

/-- One step of the `_recombine` loop. -/
def recombineStep (limit : Nat) (sep : Str) (st : List Str × Str) (part : Str) :
    List Str × Str :=
  let candidate := if st.2 = [] then part else st.2 ++ sep ++ part
  if candidate.length ≤ limit then (st.1, candidate)
  else
    let chunks := if st.2 = [] then st.1 else st.1 ++ [st.2]
    if part.length ≤ limit then (chunks, part)
    else
      let sub := split_by_words part limit
      (chunks ++ sub.dropLast, (sub.getLast?).getD [])

/-- `_recombine`: pack the given parts into chunks within the limit. -/
def recombine (parts : List Str) (limit : Nat) (sep : Str) : List Str :=
  let st := parts.foldl (recombineStep limit sep) ([], [])
  if st.2 = [] then st.1 else st.1 ++ [st.2]

/-- `_split_prose`: split by paragraph, then sentence, clause and word
boundaries. -/
def split_prose (text : Str) (limit : Nat) : List Str :=
  let parts := paraSplit text
  if (parts.all fun p => p.length ≤ limit) && decide (1 < parts.length) then
    recombine parts limit ['\n', '\n']
  else
    parts.flatMap fun part =>
      if part.length ≤ limit then [part]
      else
        let sentences := sentenceSplit part
        if 1 < sentences.length then recombine sentences limit [' ']
        else
          let clauses := clauseSplit part
          if 1 < clauses.length then recombine clauses limit [' ']
          else split_by_words part limit

/-- A re-fenced chunk: opener line, joined interior lines, closing fence. -/
def fencedChunk (opener : Str) (ls : List Str) : Str :=
  opener ++ '\n' :: (joinNl ls ++ '\n' :: [btick, btick, btick])

/-- One step of the `_split_code_block` line-packing loop.  `maxInner` is an
integer because the Python value `limit - overhead` may be negative. -/
def codeStep (opener : Str) (maxInner : Int) (st : List Str × List Str × Nat)
    (line : Str) : List Str × List Str × Nat :=
  let lineLen := line.length + 1
  if maxInner < ((st.2.2 + lineLen : Nat) : Int) ∧ st.2.1 ≠ [] then
    (st.1 ++ [fencedChunk opener st.2.1], [line], lineLen)
  else (st.1, st.2.1 ++ [line], st.2.2 + lineLen)

/-- `_split_code_block`: split a code block across multiple fenced blocks
along interior line boundaries. -/
def split_code_block (block : Str) (limit : Nat) : List Str :=
  let lines := splitNl block
  let opener := lines.headD [btick, btick, btick]
  let closer : Str := [btick, btick, btick]
  let innerLines := if 2 ≤ lines.length then (lines.drop 1).dropLast else lines.drop 1
  let maxInner : Int := (limit : Int) - ((opener.length + closer.length + 2 : Nat) : Int)
  let st := innerLines.foldl (codeStep opener maxInner) ([], [], 0)
  let chunks := if st.2.1 = [] then st.1 else st.1 ++ [fencedChunk opener st.2.1]
  if chunks = [] then [block] else chunks

/-- One step of the main segment loop of `chunk_message`: greedily pack a
segment into the current chunk, or flush and split the segment. -/
def segStep (limit : Nat) (st : List Str × Str) (seg : Str) : List Str × Str :=
  if st.2.length + seg.length + 1 ≤ limit then
    (st.1, if st.2 = [] then seg else pyStrip (st.2 ++ '\n' :: seg))
  else
    let chunks := if st.2 = [] then st.1 else st.1 ++ [st.2]
    if seg.length ≤ limit then (chunks, seg)
    else if isFence seg then
      let sub := split_code_block seg limit
      (chunks ++ sub.dropLast, (sub.getLast?).getD [])
    else
      let sub := split_prose seg limit
      (chunks ++ sub.dropLast, (sub.getLast?).getD [])

/-- One step of the `_merge_short_chunks` loop; the state is the already
emitted chunks and the trailing chunk. -/
def mergeStep (limit minSize : Nat) (st : List Str × Str) (chunk : Str) :
    List Str × Str :=
  if st.2.length < minSize ∧ st.2.length + chunk.length + 1 ≤ limit then
    (st.1, st.2 ++ '\n' :: chunk)
  else (st.1 ++ [st.2], chunk)

/-- `_merge_short_chunks`: merge consecutive short chunks. -/
def merge_short_chunks (chunks : List Str) (limit minSize : Nat) : List Str :=
  match chunks with
  | [] => []
  | c :: rest =>
    let st := rest.foldl (mergeStep limit minSize) ([], c)
    st.1 ++ [st.2]

/-- `chunk_message`: split text into chunks respecting the platform limit
and structure. -/
def chunk_message (text : Str) (limit : Nat) (minChunk : Nat) : List Str :=
  if text.length ≤ limit then [text]
  else
    let segments := split_preserving_code text
    let st := segments.foldl (segStep limit) ([], [])
    let chunks := if st.2 = [] then st.1 else st.1 ++ [st.2]
    merge_short_chunks chunks limit minChunk

/-! ## Authorization ledger (`core/auth.py`)

Wall-clock time is modelled as `Int`: the code only compares, adds and
subtracts times, so any linearly ordered timeline embeds the behaviour. -/

/-- The `ADMIN` permission level (`PermissionLevel` IntEnum value). -/
def ADMIN : Nat := 3

/-- The mutable state of `AuthManager`. -/
structure AuthState where
  userMap : String × String → Option Nat
  rateLog : String × String → List Int
  rateLimit : Nat
  sudoGrants : String × String → Option (Nat × Int)
  sudoTimeout : Int
  pendingSudo : String → Option (String × String × Nat × String)
  defaultLevel : Nat

/-- `AuthManager.get_level`, including the lazy deletion of an expired
grant: returns the level together with the possibly updated state. -/
def getLevelState (s : AuthState) (platform userId : String) (now : Int) :
    Nat × AuthState :=
  let key := (platform, userId)
  match s.sudoGrants key with
  | some g =>
    if now < g.2 then (g.1, s)
    else
      let s1 := { s with sudoGrants := fun k => if k = key then none else s.sudoGrants k }
      match s1.userMap key with
      | some l => (l, s1)
      | none => (s1.defaultLevel, s1)
  | none =>
    match s.userMap key with
    | some l => (l, s)
    | none => (s.defaultLevel, s)

/-- The value returned by `AuthManager.get_level`. -/
def get_level (s : AuthState) (platform userId : String) (now : Int) : Nat :=
  (getLevelState s platform userId now).1

/-- The static binding with default: what `get_level` yields when no sudo
grant is active. -/
def staticLevel (s : AuthState) (platform userId : String) : Nat :=
  match s.userMap (platform, userId) with
  | some l => l
  | none => s.defaultLevel

/-- `AuthManager.check_permission`. -/
def check_permission (s : AuthState) (platform userId : String) (required : Nat)
    (now : Int) : Bool :=
  required ≤ get_level s platform userId now

/-- `AuthManager.check_rate_limit`: prune the window of the key to the last 60
seconds, then deny if the remaining count reaches the limit, else append
`now` and accept. -/
def check_rate_limit (s : AuthState) (platform userId : String) (now : Int) :
    Bool × AuthState :=
  let key := (platform, userId)
  let windowStart := now - 60
  let pruned := (s.rateLog key).filter (fun t => windowStart < t)
  let s1 := { s with rateLog := fun k => if k = key then pruned else s.rateLog k }
  if s.rateLimit ≤ pruned.length then (false, s1)
  else (true, { s1 with rateLog := fun k => if k = key then pruned ++ [now] else s1.rateLog k })

/-- `AuthManager.approve_sudo`: only an effective ADMIN may approve; on
success the pending entry is removed and a grant with expiry
`now + sudo_timeout` is installed. -/
def approve_sudo (s : AuthState) (requestId platform userId : String) (now : Int) :
    Bool × AuthState :=
  let lv := getLevelState s platform userId now
  if lv.1 < ADMIN then (false, lv.2)
  else
    match lv.2.pendingSudo requestId with
    | none => (false, lv.2)
    | some r =>
      (true, { lv.2 with
        pendingSudo := fun rid => if rid = requestId then none else lv.2.pendingSudo rid,
        sudoGrants := fun k =>
          if k = (r.1, r.2.1) then some (r.2.2.1, now + s.sudoTimeout)
          else lv.2.sudoGrants k })

/-! ## Scheduler cron pass (`core/scheduler.py`) -/

/-- A `jobs` table row. -/
structure SchedJob where
  id : Nat
  name : String
  cronExpr : String
  action : String
  enabled : Bool
  lastRun : Option Int

/-- The payload of a published `scheduler.trigger` event. -/
structure SchedTrigger where
  jobId : Nat
  jobName : String
  cronExpr : String
  action : String
deriving DecidableEq

/-- The body of the `_check_and_fire_jobs` loop for one enabled row: compute
the next fire time from `last_run` (or `now`) and fire when it is due,
updating `last_run = now`.  `nextF` models `croniter(expr, base).get_next`. -/
def fireJob (nextF : String → Int → Int) (now : Int) (j : SchedJob) :
    SchedJob × Option SchedTrigger :=
  let base := j.lastRun.getD now
  if nextF j.cronExpr base ≤ now then
    ({ j with lastRun := some now }, some ⟨j.id, j.name, j.cronExpr, j.action⟩)
  else (j, none)

/-- `Scheduler._check_and_fire_jobs`: one cron-loop pass; only enabled jobs
are considered, in row order. -/
def check_and_fire_jobs (nextF : String → Int → Int) (now : Int)
    (jobs : List SchedJob) : List SchedJob × List SchedTrigger :=
  jobs.foldl (fun st j =>
    if j.enabled then
      let r := fireJob nextF now j
      (st.1 ++ [r.1], st.2 ++ r.2.toList)
    else (st.1 ++ [j], st.2)) ([], [])

/-! ## Memory store upsert (`memory/store.py`) -/

/-- A `memory` table row (minus the key column); `created_at`/`updated_at`
are the stored ISO strings. -/
structure MemEntry where
  value : String
  category : String
  createdAt : String
  updatedAt : String
  source : String
deriving DecidableEq

/-- `MemoryStore.set`: SQL upsert where `ON CONFLICT` rebinds value,
category, `updated_at` and source from the excluded row but leaves
`created_at` untouched; a fresh insert sets both timestamps to `now`. -/
def memory_set (m : String → Option MemEntry) (key value category source now : String) :
    String → Option MemEntry :=
  fun k =>
    if k = key then
      match m key with
      | some e => some { value := value, category := category,
                         createdAt := e.createdAt, updatedAt := now, source := source }
      | none => some { value := value, category := category,
                       createdAt := now, updatedAt := now, source := source }
    else m k

/-! ## Webhook ingress (`webhooks/handlers.py`, `webhooks/server.py`) -/

/-- A minimal JSON value model for webhook payloads. -/
inductive JVal where
  | jnull
  | jstr (s : String)
  | jnum (n : Int)
  | jbool (b : Bool)
  | jarr (elems : List JVal)
  | jobj (fields : List (String × JVal))

/-- `d.get(key, default)` over an object; the first binding wins. -/
def jGet (v : JVal) (key : String) (dflt : JVal) : JVal :=
  match v with
  | .jobj fields =>
    match fields.find? (fun f => f.1 = key) with
    | some f => f.2
    | none => dflt
  | _ => dflt

/-- `d.get(key, default)` for a string-valued field; a non-string value
falls back to the default. -/
def jGetStr (v : JVal) (key : String) (dflt : String) : String :=
  match jGet v key .jnull with
  | .jstr s => s
  | _ => dflt

/-- String prefix test over the underlying character lists. -/
def strIsPre (p s : String) : Bool := p.data.isPrefixOf s.data

/-- Python `s.lower()` (ASCII), over the underlying character list. -/
def pyLower (s : String) : String := String.mk (s.data.map Char.toLower)

/-- Python `s.removeprefix(pre)`. -/
def removePre (pre s : String) : String :=
  if strIsPre pre s then String.mk (s.data.drop pre.data.length) else s

/-- The normalized `WebhookEvent` record. -/
structure WebhookEvent where
  source : String
  eventType : String
  summary : String
  payload : JVal
  channelTarget : String

/-- `normalize_github_event`: dispatch on the event type and render a human
summary. -/
def normalize_github_event (eventType : String) (payload : JVal) (channel : String) :
    WebhookEvent :=
  let repo := jGetStr (jGet payload "repository" (.jobj [])) "full_name" "unknown"
  let summary :=
    if eventType = "push" then
      let commits := match jGet payload "commits" (.jarr []) with
        | .jarr es => es
        | _ => []
      let branch := removePre "refs/heads/" (jGetStr payload "ref" "")
      let pusher := jGetStr (jGet payload "pusher" (.jobj [])) "name" "unknown"
      pusher ++ " pushed " ++ toString commits.length ++ " commit(s) to " ++ repo ++ "/" ++ branch
    else if eventType = "pull_request" then
      let action := jGetStr payload "action" ""
      let pr := jGet payload "pull_request" (.jobj [])
      let number := match jGet pr "number" .jnull with
        | .jnum n => toString n
        | _ => "?"
      let title := jGetStr pr "title" ""
      let user := jGetStr (jGet pr "user" (.jobj [])) "login" "unknown"
      user ++ " " ++ action ++ " PR #" ++ number ++ " on " ++ repo ++ ": " ++ title
    else if eventType = "issues" then
      let action := jGetStr payload "action" ""
      let issue := jGet payload "issue" (.jobj [])
      let number := match jGet issue "number" .jnull with
        | .jnum n => toString n
        | _ => "?"
      let title := jGetStr issue "title" ""
      let user := jGetStr (jGet issue "user" (.jobj [])) "login" "unknown"
      user ++ " " ++ action ++ " issue #" ++ number ++ " on " ++ repo ++ ": " ++ title
    else if eventType = "workflow_run" then
      let action := jGetStr payload "action" ""
      let run := jGet payload "workflow_run" (.jobj [])
      let name := jGetStr run "name" ""
      let conclusion := jGetStr run "conclusion" ""
      "Workflow \x27" ++ name ++ "\x27 " ++ action ++ " on " ++ repo ++ " — " ++ conclusion
    else "GitHub " ++ eventType ++ " event on " ++ repo
  ⟨"github", eventType, summary, payload, channel⟩

/-- `normalize_sentry_event`. -/
def normalize_sentry_event (payload : JVal) (channel : String) : WebhookEvent :=
  let data := jGet payload "data" (.jobj [])
  let ev := jGet data "event" data
  let title := match jGet ev "title" .jnull with
    | .jstr s => s
    | _ => jGetStr payload "message" "Sentry alert"
  let project := match jGet payload "project_name" .jnull with
    | .jstr s => s
    | _ => jGetStr payload "project" "unknown"
  let level := jGetStr ev "level" "error"
  ⟨"sentry", "alert", "[" ++ level ++ "] " ++ project ++ ": " ++ title, payload, channel⟩

/-- `normalize_generic_event`. -/
def normalize_generic_event (payload : JVal) (channel : String) : WebhookEvent :=
  let summary := jGetStr payload "summary" (jGetStr payload "message" "Webhook received")
  ⟨"generic", jGetStr payload "event_type" "generic", summary, payload, channel⟩

/-- `validate_github_signature`; `hmacHex secret body` models
`hmac.new(secret, body, sha256).hexdigest()`, and `hmac.compare_digest` is
equality.  An empty configured secret always rejects. -/
def validate_github_signature (hmacHex : String → String → String)
    (body signature secret : String) : Bool :=
  if secret = "" then false
  else if signature = "" then false
  else ("sha256=" ++ hmacHex secret body) = signature

/-- `validate_sentry_signature`: bare HMAC hex, same rejection rules. -/
def validate_sentry_signature (hmacHex : String → String → String)
    (body signature secret : String) : Bool :=
  if secret = "" then false
  else if signature = "" then false
  else hmacHex secret body = signature

/-- `validate_generic_secret`. -/
def validate_generic_secret (provided configured : String) : Bool :=
  if configured = "" then false
  else if provided = "" then false
  else provided = configured

/-- A configured webhook endpoint. -/
structure WebhookEndpointConfig where
  name : String
  path : String
  secret : String
  channel : String
deriving DecidableEq

/-- An incoming POST request: matched path, headers, raw body, and the
outcome of JSON-parsing the body (`none` models a parse failure). -/
structure WebRequest where
  path : String
  headers : String → Option String
  body : String
  json : Option JVal

/-- Substring containment of `needle` in `hay`. -/
def listContainsAux (needle : List Char) : List Char → Bool
  | [] => needle.isEmpty
  | c :: rest => needle.isPrefixOf (c :: rest) || listContainsAux needle rest

/-- Python `needle in hay` on strings. -/
def strContains (hay needle : String) : Bool := listContainsAux needle.data hay.data

/-- The endpoint path normalized to a leading slash. -/
def epPath (ep : WebhookEndpointConfig) : String :=
  if strIsPre "/" ep.path then ep.path else "/" ++ ep.path

/-- `WebhookServer._find_endpoint`. -/
def find_endpoint (endpoints : List WebhookEndpointConfig) (path : String) :
    Option WebhookEndpointConfig :=
  endpoints.find? (fun ep => epPath ep = path)

/-- `WebhookServer._validate`: dispatch on the endpoint name. -/
def server_validate (hmacHex : String → String → String)
    (ep : WebhookEndpointConfig) (req : WebRequest) : Bool :=
  let name := pyLower ep.name
  if strContains name "github" then
    validate_github_signature hmacHex req.body
      ((req.headers "X-Hub-Signature-256").getD "") ep.secret
  else if strContains name "sentry" then
    validate_sentry_signature hmacHex req.body
      ((req.headers "Sentry-Hook-Signature").getD "") ep.secret
  else
    let provided := (req.headers "X-Webhook-Secret").getD
      ((req.headers "Authorization").getD "")
    validate_generic_secret provided ep.secret

/-- `WebhookServer._normalize`. -/
def server_normalize (ep : WebhookEndpointConfig) (req : WebRequest)
    (payload : JVal) : WebhookEvent :=
  let name := pyLower ep.name
  if strContains name "github" then
    normalize_github_event ((req.headers "X-GitHub-Event").getD "unknown") payload ep.channel
  else if strContains name "sentry" then
    normalize_sentry_event payload ep.channel
  else normalize_generic_event payload ep.channel

/-- `WebhookServer._handle_webhook`: HTTP status together with the list of
`webhook.received` events published to the bus. -/
def handle_webhook (hmacHex : String → String → String)
    (endpoints : List WebhookEndpointConfig) (req : WebRequest) :
    Nat × List WebhookEvent :=
  match find_endpoint endpoints req.path with
  | none => (404, [])
  | some ep =>
    match req.json with
    | none => (400, [])
    | some payload =>
      if !(server_validate hmacHex ep req) then (401, [])
      else (200, [server_normalize ep req payload])

/-! ## Tool executor (`core/tool_executor.py`) -/

/-- A tool call returned by the provider (`ToolCall`); arguments are a JSON
object given as bindings. -/
structure ToolCallT where
  id : String
  name : String
  arguments : List (String × JVal)

/-- A provider response (`LLMResponse`). -/
structure LLMResponseT where
  content : String := ""
  tool_calls : List ToolCallT := []
  stop_reason : Option String := none
  input_tokens : Nat := 0
  output_tokens : Nat := 0

/-- One structured content entry of a message. -/
inductive ContentItem where
  | text (text : String)
  | toolUse (id name : String) (input : List (String × JVal))
  | toolResult (toolUseId : String) (content : String) (isError : Bool)

/-- Message content: a plain string or a structured entry list. -/
inductive MsgContent where
  | plain (s : String)
  | items (l : List ContentItem)

/-- `LLMMessage`. -/
structure LLMMessageT where
  role : String
  content : MsgContent

/-- `ToolResult` (`tools/base.py`); the auxiliary `data` dict is not
modelled. -/
structure ToolResultT where
  success : Bool
  output : String := ""
  error : String := ""

/-- A tool as the executor sees it: required permission level and a pure
execution function. -/
structure BaseToolT where
  requiredPermission : Nat
  execute : List (String × JVal) → ToolResultT

/-- `PermissionLevel(n).name`. -/
def levelName : Nat → String
  | 0 => "PUBLIC"
  | 1 => "TRUSTED"
  | 2 => "OPERATOR"
  | 3 => "ADMIN"
  | _ => "?"

/-- The tool-result entry produced for one tool call: unknown tool and
permission denial yield synthetic error results, otherwise the tool runs. -/
def toolResultFor (toolMap : String → Option BaseToolT) (userLevel : Nat)
    (tc : ToolCallT) : ContentItem :=
  match toolMap tc.name with
  | none => .toolResult tc.id ("Error: Unknown tool \x27" ++ tc.name ++ "\x27") true
  | some tool =>
    if userLevel < tool.requiredPermission then
      .toolResult tc.id
        ("Permission denied. Tool \x27" ++ tc.name ++ "\x27 requires "
          ++ levelName tool.requiredPermission ++ " level.") true
    else
      let r := tool.execute tc.arguments
      .toolResult tc.id (if r.success then r.output else "Error: " ++ r.error) (!r.success)

/-- The assistant turn recording the model text (when nonempty) and its
tool calls. -/
def assistantContent (resp : LLMResponseT) : List ContentItem :=
  (if resp.content = "" then [] else [.text resp.content]) ++
    resp.tool_calls.map (fun tc => .toolUse tc.id tc.name tc.arguments)

/-- The iteration of `ToolExecutor.run`: the provider is a scripted response
per call index; the log collects the message list passed to each call.
Returns (final text, number of provider calls, per-call message lists). -/
def executorAux (script : Nat → LLMResponseT) (toolMap : String → Option BaseToolT)
    (userLevel : Nat) :
    Nat → Nat → List LLMMessageT → List (List LLMMessageT) → Option LLMResponseT →
      String × Nat × List (List LLMMessageT)
  | 0, calls, _, log, last => ((last.map (·.content)).getD "", calls, log)
  | fuel + 1, calls, cur, log, _ =>
    let resp := script calls
    let log2 := log ++ [cur]
    if resp.tool_calls.isEmpty then (resp.content, calls + 1, log2)
    else
      let asst : LLMMessageT := ⟨"assistant", .items (assistantContent resp)⟩
      let results := resp.tool_calls.map (toolResultFor toolMap userLevel)
      let userMsg : LLMMessageT := ⟨"user", .items results⟩
      executorAux script toolMap userLevel fuel (calls + 1) (cur ++ [asst, userMsg]) log2 (some resp)

/-- `ToolExecutor.run` with the default `max_iterations = 10`. -/
def executor_run (script : Nat → LLMResponseT) (toolMap : String → Option BaseToolT)
    (messages : List LLMMessageT) (userLevel : Nat) (maxIterations : Nat) :
    String × Nat × List (List LLMMessageT) :=
  executorAux script toolMap userLevel maxIterations 0 messages [] none

/-! ## Plan engine (`planner/engine.py`) -/

/-- A plan step (`planner/models.py`). -/
structure PlanStepT where
  id : Nat
  description : String
  tool : Option String := none
  status : String := "pending"
  result : Option String := none
  error : Option String := none
deriving DecidableEq

/-- A plan. -/
structure PlanT where
  id : String
  goal : String
  steps : List PlanStepT
  status : String := "planning"
  channel : String := ""
deriving DecidableEq

/-- The `plan_state` listing built inside `_handle_failure`. -/
def planStateLines (steps : List PlanStepT) : String :=
  String.intercalate "\n" (steps.map (fun s =>
    "  " ++ toString s.id ++ ". [" ++ s.status ++ "] " ++ s.description))

/-- The `_FAILURE_PROMPT` template instantiated for a failed step. -/
def failurePrompt (stepId : Nat) (errMsg planState : String) : String :=
  "Step " ++ toString stepId ++ " failed with error: " ++ errMsg ++
  "\n\nCurrent plan state:\n" ++ planState ++
  "\n\nShould we retry this step, skip it, or abort the plan?\n" ++
  "Respond with ONLY a JSON object: \x7b\"action\": \"retry\" | \"skip\" | \"abort\"\x7d\n"

/-- `PlanEngine._handle_failure`: consult the provider with the failure
prompt and parse the verdict.  `complete` models `llm.complete` as prompt
content to response content; `parseAction` models
`json.loads(text.strip()).get("action")`, with `none` for a parse failure
or missing key, which (like any raised exception) yields "skip". -/
def handle_failure (complete : String → String) (parseAction : String → Option String)
    (plan : PlanT) (step : PlanStepT) : String :=
  let prompt := failurePrompt step.id (step.error.getD "None") (planStateLines plan.steps)
  (parseAction (complete prompt)).getD "skip"

/-- The reasoning prompt for a tool-less step. -/
def reasoningPrompt (goal desc results : String) : String :=
  "Plan goal: " ++ goal ++ "\nCurrent step: " ++ desc ++ "\nPrevious results: " ++ results

/-- `PlanEngine._summarize_results`: the first 200 characters of each done
nonempty result of each done step. -/
def summarize_results (steps : List PlanStepT) : String :=
  let parts := steps.filterMap (fun s =>
    match s.result with
    | some r =>
      if s.status = "done" && !(r = "") then
        some ("Step " ++ toString s.id ++ ": " ++ String.mk (r.data.take 200))
      else none
    | none => none)
  if parts = [] then "No results yet." else String.intercalate "\n" parts

/-- The step loop of `PlanEngine.execute_plan` (with `send_fn = None`):
processes the remaining steps given the already processed prefix and the
tool-invocation count.  Returns the final steps list, the loop-exit status
("failed" exactly when a verdict aborted) and the invocation count. -/
def execSteps (toolMap : String → Option BaseToolT) (complete : String → String)
    (parseAction : String → Option String) (userLevel : Nat) (plan : PlanT) :
    List PlanStepT → List PlanStepT → Nat → List PlanStepT × String × Nat
  | [], done, inv => (done, "executing", inv)
  | step :: rest, done, inv =>
    if 15 ≤ inv then
      execSteps toolMap complete parseAction userLevel plan rest
        (done ++ [{ step with status := "skipped", error := some "Tool invocation cap reached" }]) inv
    else
      match step.tool with
      | some tname =>
        match toolMap tname with
        | none =>
          let failedStep := { step with status := "failed", error := some ("Unknown tool: " ++ tname) }
          let verdict := handle_failure complete parseAction
            { plan with steps := done ++ failedStep :: rest } failedStep
          if verdict = "abort" then (done ++ failedStep :: rest, "failed", inv)
          else
            execSteps toolMap complete parseAction userLevel plan rest
              (done ++ [if verdict = "skip" then { failedStep with status := "skipped" } else failedStep]) inv
        | some tool =>
          if userLevel < tool.requiredPermission then
            let failedStep := { step with status := "failed", error := some ("Permission denied for " ++ tname) }
            let verdict := handle_failure complete parseAction
              { plan with steps := done ++ failedStep :: rest } failedStep
            if verdict = "abort" then (done ++ failedStep :: rest, "failed", inv)
            else
              execSteps toolMap complete parseAction userLevel plan rest
                (done ++ [if verdict = "skip" then { failedStep with status := "skipped" } else failedStep]) inv
          else
            let r := tool.execute [("command", .jstr step.description)]
            if r.success then
              execSteps toolMap complete parseAction userLevel plan rest
                (done ++ [{ step with status := "done", result := some r.output }]) (inv + 1)
            else
              let failedStep := { step with status := "failed", error := some r.error }
              let verdict := handle_failure complete parseAction
                { plan with steps := done ++ failedStep :: rest } failedStep
              if verdict = "abort" then (done ++ failedStep :: rest, "failed", inv + 1)
              else
                execSteps toolMap complete parseAction userLevel plan rest
                  (done ++ [if verdict = "skip" then { failedStep with status := "skipped" } else failedStep])
                  (inv + 1)
      | none =>
        let running := { step with status := "running" }
        let content := complete (reasoningPrompt plan.goal step.description
          (summarize_results (done ++ running :: rest)))
        execSteps toolMap complete parseAction userLevel plan rest
          (done ++ [{ step with status := "done", result := some content }]) inv

/-- `PlanEngine.execute_plan` (with `send_fn = None`): the final plan and
the number of tool invocations performed. -/
def execute_plan (toolMap : String → Option BaseToolT) (complete : String → String)
    (parseAction : String → Option String) (userLevel : Nat) (plan : PlanT) :
    PlanT × Nat :=
  let plan1 := { plan with status := "executing" }
  let r := execSteps toolMap complete parseAction userLevel plan1 plan1.steps [] 0
  ({ plan1 with steps := r.1, status := if r.2.1 ≠ "failed" then "completed" else "failed" }, r.2.2)

/-! ## Concrete instances used in the analyses -/

/-- 150 copies of the letter a: a single over-long word. -/
def exWord : Str := List.replicate 150 'a'

/-- A fenced code block whose single interior line has 200 characters. -/
def exCode : Str :=
  [btick, btick, btick, '\n'] ++ List.replicate 200 'x' ++ ['\n', btick, btick, btick]

/-- An auth state whose rate window for one key holds a stale and a fresh
timestamp, with limit 1. -/
def rateState : AuthState where
  userMap := fun _ => none
  rateLog := fun k => if k = ("discord", "u") then [0, 100] else []
  rateLimit := 1
  sudoGrants := fun _ => none
  sudoTimeout := 300
  pendingSudo := fun _ => none
  defaultLevel := 0

/-- An auth state with a static ADMIN user a, a static TRUSTED user u
holding an unexpired ADMIN sudo grant, and a pending request by u for
OPERATOR. -/
def sudoState : AuthState where
  userMap := fun k =>
    if k = ("discord", "u") then some 1
    else if k = ("discord", "a") then some 3
    else none
  rateLog := fun _ => []
  rateLimit := 5
  sudoGrants := fun k => if k = ("discord", "u") then some (3, 100) else none
  sudoTimeout := 300
  pendingSudo := fun r => if r = "sudo-1" then some ("discord", "u", 2, "deploy") else none
  defaultLevel := 0

/-- A one-entry memory table. -/
def memA : String → Option MemEntry := fun k =>
  if k = "city" then some ⟨"Paris", "general", "T0", "T0", "chat"⟩ else none

/-- A chunk is admissible when it fits the limit or starts with a fence. -/
def chunkOk (limit : Nat) (c : Str) : Prop := c.length ≤ limit ∨ isFence c = true

/-- A concrete minute job that last ran at time 0. -/
def exJob : SchedJob := ⟨1, "j", "* * * * *", "ping", true, some 0⟩

/-- A concrete next-fire function: one tick every 60 seconds. -/
def tickF : String → Int → Int := fun _ t => t + 60

/-- A toy stand-in for the HMAC hex digest. -/
def hmacToy : String → String → String := fun secret body => secret ++ body

/-- A github endpoint configured with no secret. -/
def epOpen : WebhookEndpointConfig := ⟨"github-main", "/webhooks/github", "", "discord:123"⟩

/-- A github endpoint with a secret. -/
def epSigned : WebhookEndpointConfig := ⟨"github-ci", "/hooks/ci", "s3cr3t", "discord:123"⟩

/-- A request to the secretless endpoint, signature present. -/
def reqOpen : WebRequest :=
  ⟨"/webhooks/github",
   fun h => if h = "X-Hub-Signature-256" then some "sha256=anything" else none,
   "[]", some (.jarr [])⟩

/-- A request to the signed endpoint whose signature matches `hmacToy`. -/
def reqSigned : WebRequest :=
  ⟨"/hooks/ci",
   fun h => if h = "X-Hub-Signature-256" then some "sha256=s3cr3t[]"
     else if h = "X-GitHub-Event" then some "push" else none,
   "[]", some (.jarr [])⟩

/-- An echo tool at TRUSTED level. -/
def echoTool : BaseToolT := ⟨1, fun args => ⟨true, jGetStr (.jobj args) "text" "", ""⟩⟩

/-- A tool map holding only the echo tool. -/
def echoToolMap : String → Option BaseToolT := fun n => if n = "echo" then some echoTool else none

/-- A provider script: one echo tool call, then plain text "Done". -/
def exScript : Nat → LLMResponseT := fun i =>
  if i = 0 then { content := "", tool_calls := [⟨"tu1", "echo", [("text", .jstr "hi")]⟩] }
  else { content := "Done", tool_calls := [] }

/-- The original message list of the scenario. -/
def exMessages : List LLMMessageT := [⟨"user", .plain "please echo hi"⟩]

/-- The always-failing tool. -/
def boomTool : BaseToolT := ⟨0, fun _ => ⟨false, "", "boom"⟩⟩

/-- A tool map holding only the failing tool, as "t". -/
def boomToolMap : String → Option BaseToolT := fun n => if n = "t" then some boomTool else none

/-- A provider whose content never varies. -/
def constComplete : String → String := fun _ => "irrelevant"

/-- A verdict parser that always reads "retry". -/
def retryParse : String → Option String := fun _ => some "retry"

/-- A one-step plan whose single step uses the failing tool. -/
def exPlanOne : PlanT := ⟨"p1", "goal", [⟨1, "run", some "t", "pending", none, none⟩], "planning", "discord:1"⟩

/-- A two-step plan: the failing tool step, then a reasoning step. -/
def exPlanTwo : PlanT :=
  ⟨"p2", "goal", [⟨1, "run", some "t", "pending", none, none⟩,
    ⟨2, "think", none, "pending", none, none⟩], "planning", "discord:1"⟩

/-! ## Theorems -/

/-- `getLevelState` never touches the pending-request table. -/
theorem getLevelState_pendingSudo (s : AuthState) (p u : String) (now : Int) :
    (getLevelState s p u now).2.pendingSudo = s.pendingSudo := by
  cases hg : s.sudoGrants (p, u) with
  | none => cases hm : s.userMap (p, u) <;> simp [getLevelState, hg, hm]
  | some g =>
    by_cases ht : now < g.2
    · simp [getLevelState, hg, ht]
    · cases hm : s.userMap (p, u) <;> simp [getLevelState, hg, ht, hm]

/-- `getLevelState` never touches the static user map. -/
theorem getLevelState_userMap (s : AuthState) (p u : String) (now : Int) :
    (getLevelState s p u now).2.userMap = s.userMap := by
  cases hg : s.sudoGrants (p, u) with
  | none => cases hm : s.userMap (p, u) <;> simp [getLevelState, hg, hm]
  | some g =>
    by_cases ht : now < g.2
    · simp [getLevelState, hg, ht]
    · cases hm : s.userMap (p, u) <;> simp [getLevelState, hg, ht, hm]

/-- C10: for text whose length is within the limit, `chunk_message` is the
identity up to list wrapping, whatever the structure of the text. -/
theorem chunk_message_short_identity (text : Str) (limit minChunk : Nat)
    (h : text.length ≤ limit) : chunk_message text limit minChunk = [text] := by
  simp [chunk_message, h]

/-- Instance of `chunk_message_short_identity` on a short text with an
unbalanced code fence. -/
theorem chunk_message_short_identity_witness :
    (" ``` unbalanced".data).length ≤ 100 ∧
      chunk_message (" ``` unbalanced".data) 100 100 = [" ``` unbalanced".data] :=
  ⟨by decide, chunk_message_short_identity (" ``` unbalanced".data) 100 100 (by decide)⟩

/-- C8: the memory upsert preserves `created_at` for an existing key while
rebinding value, category, `updated_at` and source from the new row; a
fresh key gets both timestamps set to the insertion time. -/
theorem memory_set_upsert (m : String → Option MemEntry)
    (key value category source now : String) :
    (∀ e, m key = some e →
      memory_set m key value category source now key =
        some ⟨value, category, e.createdAt, now, source⟩) ∧
    (m key = none →
      memory_set m key value category source now key =
        some ⟨value, category, now, now, source⟩) := by
  refine ⟨fun e he => ?_, fun he => ?_⟩ <;> simp [memory_set, he]

/-- Instance of `memory_set_upsert`: updating the existing key keeps its
creation time, inserting a fresh key stamps both times. -/
theorem memory_set_upsert_witness :
    memory_set memA "city" "Lyon" "geo" "cli" "T1" "city" =
        some ⟨"Lyon", "geo", "T0", "T1", "cli"⟩ ∧
      memory_set memA "country" "France" "geo" "cli" "T1" "country" =
        some ⟨"France", "geo", "T1", "T1", "cli"⟩ :=
  ⟨(memory_set_upsert memA "city" "Lyon" "geo" "cli" "T1").1 _ rfl,
   (memory_set_upsert memA "country" "France" "geo" "cli" "T1").2 rfl⟩

/-- C4 (amended): acceptance appends `now` to the pruned window; rejection
appends nothing, but the window is still pruned of entries older than 60
seconds — rejection is not mutation-free. -/
theorem check_rate_limit_spec (s : AuthState) (p u : String) (now : Int) :
    ((check_rate_limit s p u now).1 = true →
      (check_rate_limit s p u now).2.rateLog (p, u) =
        (s.rateLog (p, u)).filter (fun t => now - 60 < t) ++ [now]) ∧
    ((check_rate_limit s p u now).1 = false →
      (check_rate_limit s p u now).2.rateLog (p, u) =
        (s.rateLog (p, u)).filter (fun t => now - 60 < t)) ∧
    ((check_rate_limit s p u now).1 = false ↔
      s.rateLimit ≤ ((s.rateLog (p, u)).filter (fun t => now - 60 < t)).length) := by
  by_cases hcond :
      s.rateLimit ≤ ((s.rateLog (p, u)).filter (fun t => now - 60 < t)).length
  · refine ⟨fun h1 => ?_, fun h2 => ?_, ?_⟩
    · simp [check_rate_limit, hcond] at h1
    · simp [check_rate_limit, hcond]
    · simp [check_rate_limit, hcond]
  · refine ⟨fun h1 => ?_, fun h2 => ?_, ?_⟩
    · simp [check_rate_limit, hcond]
    · simp [check_rate_limit, hcond] at h2
    · simp [check_rate_limit, hcond]

/-- Instance of `check_rate_limit_spec`: a rejected call still rewrites the
window of the key to the pruned list. -/
theorem check_rate_limit_spec_witness :
    (check_rate_limit rateState "discord" "u" 100).1 = false ∧
      (check_rate_limit rateState "discord" "u" 100).2.rateLog ("discord", "u") =
        (rateState.rateLog ("discord", "u")).filter (fun t => (100 : Int) - 60 < t) :=
  ⟨by decide, (check_rate_limit_spec rateState "discord" "u" 100).2.1 (by decide)⟩

/-- C4 (as stated) is false: on this state the call is rejected, yet the
rate-limiter state changes — the stale timestamp 0 is pruned away. -/
theorem check_rate_limit_reject_mutates :
    (check_rate_limit rateState "discord" "u" 100).1 = false ∧
      (check_rate_limit rateState "discord" "u" 100).2.rateLog ("discord", "u") ≠
        rateState.rateLog ("discord", "u") := by
  refine ⟨by decide, ?_⟩
  decide

/-- C2: a successful approval of the pending request (p, u, L) installs a
grant expiring exactly at approval time plus the configured timeout;
`get_level` returns L strictly before that expiry, and the static binding
(or default) at or after it. -/
theorem approve_sudo_level_window (s : AuthState) (rid ap au p u : String)
    (lvl : Nat) (act : String) (t0 : Int)
    (hpend : s.pendingSudo rid = some (p, u, lvl, act))
    (hok : (approve_sudo s rid ap au t0).1 = true) :
    (approve_sudo s rid ap au t0).2.sudoGrants (p, u) = some (lvl, t0 + s.sudoTimeout) ∧
    (∀ t : Int, t < t0 + s.sudoTimeout →
      get_level (approve_sudo s rid ap au t0).2 p u t = lvl) ∧
    (∀ t : Int, t0 + s.sudoTimeout ≤ t →
      get_level (approve_sudo s rid ap au t0).2 p u t =
        staticLevel (approve_sudo s rid ap au t0).2 p u) := by
  rcases hlv : getLevelState s ap au t0 with ⟨lv1, s1⟩
  by_cases hadm : lv1 < ADMIN
  · exfalso
    simp [approve_sudo, hlv, hadm] at hok
  · have hp2 : s1.pendingSudo rid = some (p, u, lvl, act) := by
      have hkeep := getLevelState_pendingSudo s ap au t0
      rw [hlv] at hkeep
      rw [hkeep]; exact hpend
    have hres : approve_sudo s rid ap au t0 =
        (true, { s1 with
          pendingSudo := fun r => if r = rid then none else s1.pendingSudo r,
          sudoGrants := fun k => if k = (p, u) then some (lvl, t0 + s.sudoTimeout)
            else s1.sudoGrants k }) := by
      simp [approve_sudo, hlv, hadm, hp2]
    rw [hres]
    refine ⟨by simp, fun t ht => ?_, fun t ht => ?_⟩
    · simp [get_level, getLevelState, ht]
    · have hnl : ¬ (t < t0 + s.sudoTimeout) := not_lt.mpr ht
      cases hm : s1.userMap (p, u) <;>
        simp [get_level, getLevelState, staticLevel, hnl, hm]


/-- Instance of `approve_sudo_level_window`: the static admin approves the
pending OPERATOR request at time 0 with timeout 300; the user reads
OPERATOR at 299 and the TRUSTED static binding at the expiry 300. -/
theorem approve_sudo_level_window_witness :
    (approve_sudo sudoState "sudo-1" "discord" "a" 0).2.sudoGrants ("discord", "u") =
        some (2, 300) ∧
      get_level (approve_sudo sudoState "sudo-1" "discord" "a" 0).2 "discord" "u" 299 = 2 ∧
      get_level (approve_sudo sudoState "sudo-1" "discord" "a" 0).2 "discord" "u" 300 =
        staticLevel (approve_sudo sudoState "sudo-1" "discord" "a" 0).2 "discord" "u" :=
  ⟨(approve_sudo_level_window sudoState "sudo-1" "discord" "a" "discord" "u" 2 "deploy" 0
      (by decide) (by decide)).1,
   (approve_sudo_level_window sudoState "sudo-1" "discord" "a" "discord" "u" 2 "deploy" 0
      (by decide) (by decide)).2.1 299 (by decide),
   (approve_sudo_level_window sudoState "sudo-1" "discord" "a" "discord" "u" 2 "deploy" 0
      (by decide) (by decide)).2.2 300 (by decide)⟩

/-- C5: one cron pass over a single enabled job publishes the trigger
computed by `fireJob`; a job fires iff the next fire time from `last_run`
(else `now`) is ≤ `now`, firing records `last_run = now` and carries the
id, name, expression and action of the job; under the croniter guarantee that
the next fire time is strictly after its base, `last_run` strictly
advances, and a second fire waits for at least the cron tick after the
first fire. -/
theorem scheduler_fire_spec (nextF : String → Int → Int)
    (hnext : ∀ e t, t < nextF e t) (now1 now2 : Int) (j : SchedJob)
    (henabled : j.enabled = true) :
    (check_and_fire_jobs nextF now1 [j] =
      ([(fireJob nextF now1 j).1], (fireJob nextF now1 j).2.toList)) ∧
    ((fireJob nextF now1 j).2.isSome ↔ nextF j.cronExpr (j.lastRun.getD now1) ≤ now1) ∧
    ((fireJob nextF now1 j).2.isSome →
      (fireJob nextF now1 j).2 = some ⟨j.id, j.name, j.cronExpr, j.action⟩ ∧
      (fireJob nextF now1 j).1.lastRun = some now1) ∧
    (∀ t0, j.lastRun = some t0 → (fireJob nextF now1 j).2.isSome → t0 < now1) ∧
    ((fireJob nextF now1 j).2.isSome →
      (fireJob nextF now2 (fireJob nextF now1 j).1).2.isSome →
      nextF j.cronExpr now1 ≤ now2 ∧ now1 < now2) := by
  by_cases hfire : nextF j.cronExpr (j.lastRun.getD now1) ≤ now1
  · refine ⟨by simp [check_and_fire_jobs, henabled], ?_, ?_, ?_, ?_⟩
    · simp [fireJob, hfire]
    · intro
      simp [fireJob, hfire]
    · intro t0 ht0
      intro
      rw [ht0] at hfire
      exact lt_of_lt_of_le (hnext j.cronExpr t0) hfire
    · intro
      have hj1 : (fireJob nextF now1 j).1 = { j with lastRun := some now1 } := by
        simp [fireJob, hfire]
      rw [hj1]
      by_cases h2 : nextF j.cronExpr now1 ≤ now2
      · intro
        exact ⟨h2, lt_of_lt_of_le (hnext j.cronExpr now1) h2⟩
      · intro hsome
        simp [fireJob, Option.getD, h2] at hsome
  · refine ⟨by simp [check_and_fire_jobs, henabled], ?_, ?_, ?_, ?_⟩
    · simp [fireJob, hfire]
    · intro hsome
      simp [fireJob, hfire] at hsome
    · intro t0 ht0 hsome
      simp [fireJob, hfire] at hsome
    · intro hsome
      simp [fireJob, hfire] at hsome

/-- Instance of `scheduler_fire_spec`: the job due at 60 fires on the pass
at 61, records `last_run = 61`, and having fired at 61 it can fire at 121
only because 121 is past the next tick after 61. -/
theorem scheduler_fire_spec_witness :
    (check_and_fire_jobs tickF 61 [exJob] =
      ([(fireJob tickF 61 exJob).1], (fireJob tickF 61 exJob).2.toList)) ∧
      ((fireJob tickF 61 exJob).2 = some ⟨1, "j", "* * * * *", "ping"⟩ ∧
        (fireJob tickF 61 exJob).1.lastRun = some 61) ∧
      (tickF "* * * * *" 61 ≤ 121 ∧ (61 : Int) < 121) :=
  ⟨(scheduler_fire_spec tickF (fun e t => by simp [tickF]) 61 121 exJob rfl).1,
   (scheduler_fire_spec tickF (fun e t => by simp [tickF]) 61 121 exJob rfl).2.2.1 (by decide),
   (scheduler_fire_spec tickF (fun e t => by simp [tickF]) 61 121 exJob rfl).2.2.2.2
     (by decide) (by decide)⟩

/-- Every validator rejects when the configured secret is empty: no open
mode. -/
theorem server_validate_empty_secret (hmacHex : String → String → String)
    (ep : WebhookEndpointConfig) (req : WebRequest) (h : ep.secret = "") :
    server_validate hmacHex ep req = false := by
  by_cases h1 : strContains (pyLower ep.name) "github" <;>
    by_cases h2 : strContains (pyLower ep.name) "sentry" <;>
      simp [server_validate, h1, h2, validate_github_signature,
        validate_sentry_signature, validate_generic_secret, h]

/-- C3: for a POST that reaches a configured endpoint with a valid JSON
body, an empty configured secret — or any failed validation — yields a 401
response with no published event; a `webhook.received` event is published
(with 200) exactly when validation succeeds. -/
theorem handle_webhook_auth (hmacHex : String → String → String)
    (endpoints : List WebhookEndpointConfig) (req : WebRequest)
    (ep : WebhookEndpointConfig) (payload : JVal)
    (hep : find_endpoint endpoints req.path = some ep)
    (hjson : req.json = some payload) :
    (ep.secret = "" → handle_webhook hmacHex endpoints req = (401, [])) ∧
    (server_validate hmacHex ep req = false →
      handle_webhook hmacHex endpoints req = (401, [])) ∧
    (server_validate hmacHex ep req = true →
      handle_webhook hmacHex endpoints req = (200, [server_normalize ep req payload])) := by
  refine ⟨fun hs => ?_, fun hv => ?_, fun hv => ?_⟩
  · have hv := server_validate_empty_secret hmacHex ep req hs
    simp [handle_webhook, hep, hjson, hv]
  · simp [handle_webhook, hep, hjson, hv]
  · simp [handle_webhook, hep, hjson, hv]

/-- Instance of `handle_webhook_auth`: the empty-secret endpoint rejects
with 401 and publishes nothing; the signed endpoint with a matching
signature answers 200 and publishes exactly the normalized event. -/
theorem handle_webhook_auth_witness :
    handle_webhook hmacToy [epOpen, epSigned] reqOpen = (401, []) ∧
      handle_webhook hmacToy [epOpen, epSigned] reqSigned =
        (200, [server_normalize epSigned reqSigned (.jarr [])]) :=
  ⟨(handle_webhook_auth hmacToy [epOpen, epSigned] reqOpen epOpen (.jarr [])
      (by decide) rfl).1 rfl,
   (handle_webhook_auth hmacToy [epOpen, epSigned] reqSigned epSigned (.jarr [])
      (by decide) rfl).2.2 (by decide)⟩

/-- C9: `approve_sudo` accepts any approver whose effective level at
approval time is ADMIN; a user whose static binding is below ADMIN but who
holds an unexpired ADMIN sudo grant can approve a pending request —
including one elevating themself. -/
theorem approve_sudo_by_sudoed_admin (s : AuthState) (rid p u : String)
    (lvl l : Nat) (act : String) (e now : Int)
    (hgrant : s.sudoGrants (p, u) = some (ADMIN, e)) (hnow : now < e)
    (hstatic : s.userMap (p, u) = some l) (hl : l < ADMIN)
    (hpend : s.pendingSudo rid = some (p, u, lvl, act)) :
    (approve_sudo s rid p u now).1 = true ∧
      (approve_sudo s rid p u now).2.sudoGrants (p, u) =
        some (lvl, now + s.sudoTimeout) := by
  have hlv : getLevelState s p u now = (ADMIN, s) := by
    simp [getLevelState, hgrant, hnow]
  constructor <;> simp [approve_sudo, hlv, hpend]

/-- Instance of `approve_sudo_by_sudoed_admin`: the TRUSTED user u, holding
an active ADMIN grant, approves their own pending OPERATOR request. -/
theorem approve_sudo_by_sudoed_admin_witness :
    (approve_sudo sudoState "sudo-1" "discord" "u" 50).1 = true ∧
      (approve_sudo sudoState "sudo-1" "discord" "u" 50).2.sudoGrants ("discord", "u") =
        some (2, 350) :=
  approve_sudo_by_sudoed_admin sudoState "sudo-1" "discord" "u" 2 1 "deploy" 100 50
    (by decide) (by decide) (by decide) (by decide) (by decide)

/-- One-step unfolding of the executor loop, as a definitional equation. -/
theorem executorAux_step (script : Nat → LLMResponseT)
    (toolMap : String → Option BaseToolT) (userLevel fuel calls : Nat)
    (cur : List LLMMessageT) (log : List (List LLMMessageT))
    (last : Option LLMResponseT) :
    executorAux script toolMap userLevel (fuel + 1) calls cur log last =
      if (script calls).tool_calls.isEmpty then
        ((script calls).content, calls + 1, log ++ [cur])
      else
        executorAux script toolMap userLevel fuel (calls + 1)
          (cur ++ [⟨"assistant", .items (assistantContent (script calls))⟩,
            ⟨"user", .items ((script calls).tool_calls.map (toolResultFor toolMap userLevel))⟩])
          (log ++ [cur]) (some (script calls)) := rfl

/-- C6: with a provider scripted to return one tool call and then the plain
text "Done", the executor returns "Done" after exactly two provider calls,
and the second call receives the original messages extended by exactly one
assistant turn carrying the tool-use entry and one user turn carrying the
matching tool-result entry. -/
theorem executor_two_call_scenario (script : Nat → LLMResponseT)
    (toolMap : String → Option BaseToolT) (messages : List LLMMessageT)
    (userLevel : Nat) (tc : ToolCallT) (c0 : String)
    (h0 : script 0 = { content := c0, tool_calls := [tc] })
    (h1 : script 1 = { content := "Done", tool_calls := [] }) :
    executor_run script toolMap messages userLevel 10 =
      ("Done", 2,
        [messages,
         messages ++
           [⟨"assistant", .items ((if c0 = "" then [] else [.text c0]) ++
              [.toolUse tc.id tc.name tc.arguments])⟩,
            ⟨"user", .items [toolResultFor toolMap userLevel tc]⟩]]) := by
  show executorAux script toolMap userLevel (9 + 1) 0 messages [] none = _
  rw [executorAux_step, h0]
  show (if ([tc].isEmpty = true) then _ else _) = _
  rw [if_neg (by simp)]
  show executorAux script toolMap userLevel (8 + 1) 1 _ _ _ = _
  rw [executorAux_step, h1]
  simp [assistantContent, h0]

/-- Instance of `executor_two_call_scenario` on the concrete echo script:
the tool result turn carries the echoed text. -/
theorem executor_two_call_scenario_witness :
    executor_run exScript echoToolMap exMessages 1 10 =
      ("Done", 2,
        [exMessages,
         exMessages ++
           [⟨"assistant", .items [.toolUse "tu1" "echo" [("text", .jstr "hi")]]⟩,
            ⟨"user", .items [.toolResult "tu1" "hi" false]⟩]]) := by
  rw [executor_two_call_scenario exScript echoToolMap exMessages 1
    ⟨"tu1", "echo", [("text", .jstr "hi")]⟩ "" rfl rfl]
  rfl

/-- C7 (amended): when a step with a tool fails — unknown tool, permission
denied, or execution failure — the provider verdict is applied as
follows: "abort" sets the plan status to failed and stops with the
remaining steps untouched; "skip" marks the step skipped and continues;
any other verdict, "retry" included, leaves the step failed and continues
with the next step — the step is not re-run. -/
theorem plan_failure_policy (toolMap : String → Option BaseToolT)
    (complete : String → String) (parseAction : String → Option String)
    (userLevel : Nat) (plan : PlanT) (step : PlanStepT)
    (rest done : List PlanStepT) (inv : Nat) (tname : String)
    (hinv : inv < 15) (htool : step.tool = some tname) :
    (toolMap tname = none →
      execSteps toolMap complete parseAction userLevel plan (step :: rest) done inv =
        (let f := { step with status := "failed", error := some ("Unknown tool: " ++ tname) }
         let v := handle_failure complete parseAction { plan with steps := done ++ f :: rest } f
         if v = "abort" then (done ++ f :: rest, "failed", inv)
         else execSteps toolMap complete parseAction userLevel plan rest
           (done ++ [if v = "skip" then { f with status := "skipped" } else f]) inv)) ∧
    (∀ tool, toolMap tname = some tool → userLevel < tool.requiredPermission →
      execSteps toolMap complete parseAction userLevel plan (step :: rest) done inv =
        (let f := { step with status := "failed", error := some ("Permission denied for " ++ tname) }
         let v := handle_failure complete parseAction { plan with steps := done ++ f :: rest } f
         if v = "abort" then (done ++ f :: rest, "failed", inv)
         else execSteps toolMap complete parseAction userLevel plan rest
           (done ++ [if v = "skip" then { f with status := "skipped" } else f]) inv)) ∧
    (∀ tool r, toolMap tname = some tool → ¬ userLevel < tool.requiredPermission →
      tool.execute [("command", .jstr step.description)] = r → r.success = false →
      execSteps toolMap complete parseAction userLevel plan (step :: rest) done inv =
        (let f := { step with status := "failed", error := some r.error }
         let v := handle_failure complete parseAction { plan with steps := done ++ f :: rest } f
         if v = "abort" then (done ++ f :: rest, "failed", inv + 1)
         else execSteps toolMap complete parseAction userLevel plan rest
           (done ++ [if v = "skip" then { f with status := "skipped" } else f]) (inv + 1))) := by
  have hcap : ¬ 15 ≤ inv := Nat.not_le.mpr hinv
  refine ⟨fun hnone => ?_, fun tool hsome hperm => ?_, fun tool r hsome hperm hexec hfail => ?_⟩
  · simp only [execSteps, hcap, if_false, htool, hnone]
  · simp only [execSteps, hcap, if_false, htool, hsome, if_pos hperm]
  · simp only [execSteps, hcap, if_false, htool, hsome, if_neg hperm, hexec, hfail,
      Bool.false_eq_true]

/-- Instance of `plan_failure_policy`: under the "retry" verdict the failed
step is recorded once, execution moves past it, and the tool was invoked
exactly once. -/
theorem plan_failure_policy_witness :
    execSteps boomToolMap constComplete retryParse 3 exPlanOne
        [⟨1, "run", some "t", "pending", none, none⟩] [] 0 =
      ([⟨1, "run", some "t", "failed", none, some "boom"⟩], "executing", 1) := by
  have h := (plan_failure_policy boomToolMap constComplete retryParse 3 exPlanOne
      ⟨1, "run", some "t", "pending", none, none⟩ [] [] 0 "t" (by decide) rfl).2.2
      boomTool ⟨false, "", "boom"⟩ rfl (by decide) rfl rfl
  rw [h]
  rfl

/-- C7 (as stated) is false: on a plan where the tool of the first step always
fails and whose provider verdict is "retry", the engine does not re-run
the step — the tool is invoked exactly once, the step stays failed, and
the plan proceeds to completion. -/
theorem plan_retry_not_rerun :
    (execute_plan boomToolMap constComplete retryParse 3 exPlanTwo).2 = 1 ∧
      ((execute_plan boomToolMap constComplete retryParse 3 exPlanTwo).1.steps.map
        (fun s => s.status)) = ["failed", "done"] ∧
      (execute_plan boomToolMap constComplete retryParse 3 exPlanTwo).1.status =
        "completed" := by
  refine ⟨rfl, rfl, rfl⟩

/-- Stripping only shortens. -/
theorem pyStrip_length_le (s : Str) : (pyStrip s).length ≤ s.length := by
  unfold pyStrip
  calc ((s.dropWhile pySpace).reverse.dropWhile pySpace).reverse.length
      = ((s.dropWhile pySpace).reverse.dropWhile pySpace).length :=
        List.length_reverse _
    _ ≤ (s.dropWhile pySpace).reverse.length :=
        (List.dropWhile_suffix pySpace).length_le
    _ = (s.dropWhile pySpace).length := List.length_reverse _
    _ ≤ s.length := (List.dropWhile_suffix pySpace).length_le

/-- A property holding on a list and on the default holds on
`getLast?.getD`. -/
theorem getLastD_bound {α : Type} (l : List α) (d : α) (P : α → Prop)
    (hl : ∀ x ∈ l, P x) (hd : P d) : P ((l.getLast?).getD d) := by
  cases h : l.getLast? with
  | none => simpa using hd
  | some a => simpa using hl a (List.mem_of_mem_getLast? h)

/-- One word step keeps every emitted chunk and the current chunk within
the limit. -/
theorem wordsStep_inv (limit : Nat) (st : List Str × Str) (w : Str)
    (h1 : ∀ c ∈ st.1, c.length ≤ limit) (h2 : st.2.length ≤ limit) :
    (∀ c ∈ (wordsStep limit st w).1, c.length ≤ limit) ∧
      (wordsStep limit st w).2.length ≤ limit := by
  unfold wordsStep
  by_cases hc : (if st.2 = [] then w else st.2 ++ ' ' :: w).length ≤ limit
  · simp only [if_pos hc]
    exact ⟨h1, hc⟩
  · simp only [if_neg hc]
    refine ⟨fun c hmem => ?_, ?_⟩
    · by_cases he : st.2 = []
      · rw [if_pos he] at hmem
        exact h1 c hmem
      · rw [if_neg he] at hmem
        rcases List.mem_append.mp hmem with hm | hm
        · exact h1 c hm
        · rw [List.mem_singleton] at hm
          subst hm
          exact h2
    · by_cases hw : w.length ≤ limit
      · simpa [hw] using hw
      · simp only [if_neg hw, List.length_take]
        omega

/-- The word fold keeps all chunks and the current chunk within the limit. -/
theorem wordsFold_inv (limit : Nat) (ws : List Str) (st : List Str × Str)
    (h1 : ∀ c ∈ st.1, c.length ≤ limit) (h2 : st.2.length ≤ limit) :
    (∀ c ∈ (ws.foldl (wordsStep limit) st).1, c.length ≤ limit) ∧
      (ws.foldl (wordsStep limit) st).2.length ≤ limit := by
  induction ws generalizing st with
  | nil => exact ⟨h1, h2⟩
  | cons w ws ih =>
    rw [List.foldl_cons]
    obtain ⟨g1, g2⟩ := wordsStep_inv limit st w h1 h2
    exact ih _ g1 g2

/-- Every chunk of the word splitter fits the limit (over-long words are
hard-sliced). -/
theorem split_by_words_bound (t : Str) (limit : Nat) :
    ∀ c ∈ split_by_words t limit, c.length ≤ limit := by
  intro c hc
  simp only [split_by_words] at hc
  obtain ⟨g1, g2⟩ := wordsFold_inv limit (pyWords t) ([], []) (by simp) (by simp)
  split at hc
  · exact g1 c hc
  · rcases List.mem_append.mp hc with hm | hm
    · exact g1 c hm
    · rw [List.mem_singleton] at hm
      subst hm
      exact g2

/-- One recombine step keeps every emitted chunk and the current chunk
within the limit. -/
theorem recombineStep_inv (limit : Nat) (sep : Str) (st : List Str × Str) (part : Str)
    (h1 : ∀ c ∈ st.1, c.length ≤ limit) (h2 : st.2.length ≤ limit) :
    (∀ c ∈ (recombineStep limit sep st part).1, c.length ≤ limit) ∧
      (recombineStep limit sep st part).2.length ≤ limit := by
  unfold recombineStep
  by_cases hc : (if st.2 = [] then part else st.2 ++ sep ++ part).length ≤ limit
  · simp only [if_pos hc]
    exact ⟨h1, hc⟩
  · simp only [if_neg hc]
    have hchunks : ∀ c ∈ (if st.2 = [] then st.1 else st.1 ++ [st.2]), c.length ≤ limit := by
      intro c hmem
      by_cases he : st.2 = []
      · rw [if_pos he] at hmem
        exact h1 c hmem
      · rw [if_neg he] at hmem
        rcases List.mem_append.mp hmem with hm | hm
        · exact h1 c hm
        · rw [List.mem_singleton] at hm
          subst hm
          exact h2
    by_cases hp : part.length ≤ limit
    · simp only [if_pos hp]
      exact ⟨hchunks, hp⟩
    · simp only [if_neg hp]
      refine ⟨fun c hmem => ?_, ?_⟩
      · rcases List.mem_append.mp hmem with hm | hm
        · exact hchunks c hm
        · exact split_by_words_bound part limit c (List.dropLast_subset _ hm)
      · exact getLastD_bound (split_by_words part limit) [] (fun x => x.length ≤ limit)
          (fun x hx => split_by_words_bound part limit x hx) (by simp)

/-- The recombine fold keeps all chunks and the current chunk within the
limit. -/
theorem recombineFold_inv (limit : Nat) (sep : Str) (parts : List Str)
    (st : List Str × Str)
    (h1 : ∀ c ∈ st.1, c.length ≤ limit) (h2 : st.2.length ≤ limit) :
    (∀ c ∈ (parts.foldl (recombineStep limit sep) st).1, c.length ≤ limit) ∧
      (parts.foldl (recombineStep limit sep) st).2.length ≤ limit := by
  induction parts generalizing st with
  | nil => exact ⟨h1, h2⟩
  | cons p ps ih =>
    rw [List.foldl_cons]
    obtain ⟨g1, g2⟩ := recombineStep_inv limit sep st p h1 h2
    exact ih _ g1 g2

/-- Every chunk produced by `_recombine` fits the limit. -/
theorem recombine_bound (parts : List Str) (limit : Nat) (sep : Str) :
    ∀ c ∈ recombine parts limit sep, c.length ≤ limit := by
  intro c hc
  simp only [recombine] at hc
  obtain ⟨g1, g2⟩ := recombineFold_inv limit sep parts ([], []) (by simp) (by simp)
  split at hc
  · exact g1 c hc
  · rcases List.mem_append.mp hc with hm | hm
    · exact g1 c hm
    · rw [List.mem_singleton] at hm
      subst hm
      exact g2

/-- Every chunk produced by `_split_prose` fits the limit. -/
theorem split_prose_bound (t : Str) (limit : Nat) :
    ∀ c ∈ split_prose t limit, c.length ≤ limit := by
  intro c hc
  simp only [split_prose] at hc
  split at hc
  · exact recombine_bound _ _ _ c hc
  · rw [List.mem_flatMap] at hc
    obtain ⟨part, hpart, hcm⟩ := hc
    split at hcm
    · rename_i hplen
      rw [List.mem_singleton] at hcm
      subst hcm
      exact hplen
    · split at hcm
      · exact recombine_bound _ _ _ c hcm
      · split at hcm
        · exact recombine_bound _ _ _ c hcm
        · exact split_by_words_bound _ _ c hcm

/-- A fence opener survives appending. -/
theorem isFence_append (s t : Str) (h : isFence s = true) : isFence (s ++ t) = true := by
  cases s with
  | nil => simp [isFence] at h
  | cons c1 s1 =>
    cases s1 with
    | nil => simp [isFence] at h
    | cons c2 s2 =>
      cases s2 with
      | nil => simp [isFence] at h
      | cons c3 rest => simpa [isFence, List.cons_append] using h

/-- A re-fenced chunk starts with the fence of the opener. -/
theorem fencedChunk_fence (opener : Str) (ls : List Str)
    (h : isFence opener = true) : isFence (fencedChunk opener ls) = true := by
  unfold fencedChunk
  exact isFence_append _ _ h

/-- `splitNl` never returns the empty list. -/
theorem splitNl_ne_nil (s : Str) : splitNl s ≠ [] := by
  cases s with
  | nil => simp [splitNl]
  | cons c rest =>
    cases hs : splitNl rest with
    | nil => simp [splitNl, hs]
    | cons h t => by_cases hc : c = '\n' <;> simp [splitNl, hs, hc]

/-- The first line of `c :: rest` starts with `c` when `c` is no newline. -/
theorem splitNl_head_cons (c : Char) (rest : Str) (hc : ¬ c = '\n') (d d2 : Str) :
    (splitNl (c :: rest)).headD d = c :: (splitNl rest).headD d2 := by
  cases hs : splitNl rest with
  | nil => exact absurd hs (splitNl_ne_nil rest)
  | cons h t => simp [splitNl, hs, hc]

/-- The first line of a fenced block starts with the fence. -/
theorem splitNl_headD_fence (blk : Str) (h : isFence blk = true) :
    isFence ((splitNl blk).headD [btick, btick, btick]) = true := by
  cases blk with
  | nil => simp [isFence] at h
  | cons c1 s1 =>
    cases s1 with
    | nil => simp [isFence] at h
    | cons c2 s2 =>
      cases s2 with
      | nil => simp [isFence] at h
      | cons c3 rest =>
        have hb : (c1 = btick ∧ c2 = btick) ∧ c3 = btick := by
          simpa [isFence] using h
        obtain ⟨⟨rfl, rfl⟩, rfl⟩ := hb
        have hbn : ¬ btick = '\n' := by decide
        rw [splitNl_head_cons btick _ hbn _ [],
          splitNl_head_cons btick _ hbn _ [],
          splitNl_head_cons btick _ hbn _ []]
        simp [isFence]

/-- The line-packing fold of the code splitter emits only fenced chunks. -/
theorem codeFold_fence (opener : Str) (maxInner : Int) (hop : isFence opener = true)
    (lines : List Str) :
    ∀ st : List Str × List Str × Nat, (∀ c ∈ st.1, isFence c = true) →
      ∀ c ∈ (lines.foldl (codeStep opener maxInner) st).1, isFence c = true := by
  induction lines with
  | nil => exact fun st h1 => h1
  | cons l ls ih =>
    intro st h1
    rw [List.foldl_cons]
    apply ih
    intro c hmem
    simp only [codeStep] at hmem
    split at hmem
    · rcases List.mem_append.mp hmem with hm | hm
      · exact h1 c hm
      · rw [List.mem_singleton] at hm
        subst hm
        exact fencedChunk_fence _ _ hop
    · exact h1 c hmem

/-- Membership in a list with one appended element. -/
theorem mem_append_single {α : Type} {c x : α} {l : List α} (h : c ∈ l ++ [x]) :
    c ∈ l ∨ c = x := by
  rcases List.mem_append.mp h with hm | hm
  · exact Or.inl hm
  · right
    simpa using hm

/-- The chunk assembly of the code splitter produces only fenced chunks
when the block and the opener are fenced. -/
theorem codeChunks_fence (opener blk : Str) (maxInner : Int) (innerLines : List Str)
    (hblk : isFence blk = true) (hop : isFence opener = true) (c : Str)
    (hc : c ∈
      (if (if (innerLines.foldl (codeStep opener maxInner) ([], [], 0)).2.1 = []
           then (innerLines.foldl (codeStep opener maxInner) ([], [], 0)).1
           else (innerLines.foldl (codeStep opener maxInner) ([], [], 0)).1
             ++ [fencedChunk opener
                  (innerLines.foldl (codeStep opener maxInner) ([], [], 0)).2.1]) = []
       then [blk]
       else if (innerLines.foldl (codeStep opener maxInner) ([], [], 0)).2.1 = []
         then (innerLines.foldl (codeStep opener maxInner) ([], [], 0)).1
         else (innerLines.foldl (codeStep opener maxInner) ([], [], 0)).1
           ++ [fencedChunk opener
                (innerLines.foldl (codeStep opener maxInner) ([], [], 0)).2.1])) :
    isFence c = true := by
  by_cases h21 : (innerLines.foldl (codeStep opener maxInner) ([], [], 0)).2.1 = []
  · simp only [if_pos h21] at hc
    split at hc
    · rw [List.mem_singleton] at hc
      subst hc
      exact hblk
    · exact codeFold_fence opener maxInner hop innerLines ([], [], 0) (by simp) c hc
  · simp only [if_neg h21] at hc
    split at hc
    · rw [List.mem_singleton] at hc
      subst hc
      exact hblk
    · rcases mem_append_single hc with hm | rfl
      · exact codeFold_fence opener maxInner hop innerLines ([], [], 0) (by simp) c hm
      · exact fencedChunk_fence _ _ hop

/-- Every chunk of `_split_code_block` on a fenced block is fenced. -/
theorem split_code_block_fence (blk : Str) (limit : Nat) (h : isFence blk = true) :
    ∀ c ∈ split_code_block blk limit, isFence c = true := by
  intro c hc
  have hop : isFence ((splitNl blk).headD [btick, btick, btick]) = true :=
    splitNl_headD_fence blk h
  simp only [split_code_block] at hc
  exact codeChunks_fence _ blk _ _ h hop c hc

/-- One segment step keeps every emitted chunk and the current chunk
admissible. -/
theorem segStep_inv (limit : Nat) (st : List Str × Str) (seg : Str)
    (h1 : ∀ c ∈ st.1, chunkOk limit c) (h2 : chunkOk limit st.2) :
    (∀ c ∈ (segStep limit st seg).1, chunkOk limit c) ∧
      chunkOk limit (segStep limit st seg).2 := by
  unfold segStep
  by_cases hfit : st.2.length + seg.length + 1 ≤ limit
  · simp only [if_pos hfit]
    refine ⟨h1, ?_⟩
    by_cases he : st.2 = []
    · rw [if_pos he]
      left
      omega
    · rw [if_neg he]
      left
      have hstrip := pyStrip_length_le (st.2 ++ '\n' :: seg)
      simp only [List.length_append, List.length_cons] at hstrip
      omega
  · simp only [if_neg hfit]
    have hchunks : ∀ c ∈ (if st.2 = [] then st.1 else st.1 ++ [st.2]), chunkOk limit c := by
      intro c hmem
      by_cases he : st.2 = []
      · rw [if_pos he] at hmem
        exact h1 c hmem
      · rw [if_neg he] at hmem
        rcases List.mem_append.mp hmem with hm | hm
        · exact h1 c hm
        · rw [List.mem_singleton] at hm
          subst hm
          exact h2
    by_cases hseg : seg.length ≤ limit
    · simp only [if_pos hseg]
      exact ⟨hchunks, Or.inl hseg⟩
    · simp only [if_neg hseg]
      cases hcode : isFence seg with
      | true =>
        simp only [if_true]
        refine ⟨fun c hmem => ?_, ?_⟩
        · rcases List.mem_append.mp hmem with hm | hm
          · exact hchunks c hm
          · exact Or.inr (split_code_block_fence seg limit hcode c
              (List.dropLast_subset _ hm))
        · exact getLastD_bound (split_code_block seg limit) [] (chunkOk limit)
            (fun x hx => Or.inr (split_code_block_fence seg limit hcode x hx))
            (Or.inl (by simp))
      | false =>
        simp only [Bool.false_eq_true, if_false]
        refine ⟨fun c hmem => ?_, ?_⟩
        · rcases List.mem_append.mp hmem with hm | hm
          · exact hchunks c hm
          · exact Or.inl (split_prose_bound seg limit c (List.dropLast_subset _ hm))
        · exact getLastD_bound (split_prose seg limit) [] (chunkOk limit)
            (fun x hx => Or.inl (split_prose_bound seg limit x hx))
            (Or.inl (by simp))

/-- The segment fold keeps all chunks and the current chunk admissible. -/
theorem segFold_inv (limit : Nat) (segs : List Str) (st : List Str × Str)
    (h1 : ∀ c ∈ st.1, chunkOk limit c) (h2 : chunkOk limit st.2) :
    (∀ c ∈ (segs.foldl (segStep limit) st).1, chunkOk limit c) ∧
      chunkOk limit (segs.foldl (segStep limit) st).2 := by
  induction segs generalizing st with
  | nil => exact ⟨h1, h2⟩
  | cons sg sgs ih =>
    rw [List.foldl_cons]
    obtain ⟨g1, g2⟩ := segStep_inv limit st sg h1 h2
    exact ih _ g1 g2

/-- The merge fold keeps all chunks and the trailing chunk admissible. -/
theorem mergeFold_inv (limit minSize : Nat) (chunks : List Str) :
    ∀ st : List Str × Str, (∀ c ∈ chunks, chunkOk limit c) →
      (∀ c ∈ st.1, chunkOk limit c) → chunkOk limit st.2 →
      (∀ c ∈ (chunks.foldl (mergeStep limit minSize) st).1, chunkOk limit c) ∧
        chunkOk limit (chunks.foldl (mergeStep limit minSize) st).2 := by
  induction chunks with
  | nil => exact fun st _ h1 h2 => ⟨h1, h2⟩
  | cons ch cs ih =>
    intro st hlist h1 h2
    rw [List.foldl_cons]
    apply ih
    · exact fun c hc => hlist c (List.mem_cons_of_mem _ hc)
    · intro c hmem
      simp only [mergeStep] at hmem
      split at hmem
      · exact h1 c hmem
      · rcases List.mem_append.mp hmem with hm | hm
        · exact h1 c hm
        · rw [List.mem_singleton] at hm
          subst hm
          exact h2
    · simp only [mergeStep]
      split
      · rename_i hcond
        left
        have hlen := hcond.2
        simp only [List.length_append, List.length_cons]
        omega
      · exact hlist ch (List.mem_cons_self _ _)

/-- `_merge_short_chunks` keeps admissible chunks admissible. -/
theorem merge_short_chunks_ok (chunks : List Str) (limit minSize : Nat)
    (hlist : ∀ c ∈ chunks, chunkOk limit c) :
    ∀ c ∈ merge_short_chunks chunks limit minSize, chunkOk limit c := by
  intro c hc
  cases chunks with
  | nil => simp [merge_short_chunks] at hc
  | cons c0 rest =>
    simp only [merge_short_chunks] at hc
    obtain ⟨g1, g2⟩ := mergeFold_inv limit minSize rest ([], c0)
      (fun x hx => hlist x (List.mem_cons_of_mem _ hx)) (by simp)
      (hlist c0 (List.mem_cons_self _ _))
    rcases List.mem_append.mp hc with hm | hm
    · exact g1 c hm
    · rw [List.mem_singleton] at hm
      subst hm
      exact g2

/-- C1 (amended): every chunk returned by `chunk_message` that does not
begin with a code fence has length at most the limit.  (Chunks that begin
with a fence can exceed the limit when a single code line is longer than
the inner width, and concatenation is not content-preserving in general.) -/
theorem chunk_message_nonfence_bound (text : Str) (limit minChunk : Nat)
    (c : Str) (hc : c ∈ chunk_message text limit minChunk)
    (hf : isFence c = false) : c.length ≤ limit := by
  have hok : chunkOk limit c := by
    simp only [chunk_message] at hc
    split at hc
    · rename_i hlen
      rw [List.mem_singleton] at hc
      subst hc
      exact Or.inl hlen
    · obtain ⟨g1, g2⟩ := segFold_inv limit (split_preserving_code text) ([], [])
        (by simp) (Or.inl (by simp))
      apply merge_short_chunks_ok _ limit minChunk ?_ c hc
      intro x hx
      split at hx
      · exact g1 x hx
      · rcases List.mem_append.mp hx with hm | hm
        · exact g1 x hm
        · rw [List.mem_singleton] at hm
          subst hm
          exact g2
  rcases hok with h | h
  · exact h
  · rw [hf] at h
    cases h

set_option maxRecDepth 100000 in
/-- Instance of `chunk_message_nonfence_bound`: the single chunk produced
for the over-long word is not fenced and fits the limit. -/
theorem chunk_message_nonfence_bound_witness :
    List.replicate 100 'a' ∈ chunk_message exWord 100 100 ∧
      (List.replicate 100 'a').length ≤ 100 :=
  ⟨by decide,
   chunk_message_nonfence_bound exWord 100 100 (List.replicate 100 'a')
     (by decide) (by decide)⟩

set_option maxRecDepth 100000 in
/-- C1 (as stated) is false: splitting a code block whose single interior
line exceeds the limit yields a chunk longer than the limit, and a single
over-long word is truncated, so concatenation loses content even though no
code fence is involved. -/
theorem chunk_message_claim_false :
    ((chunk_message exCode 100 100).all fun c => c.length ≤ 100) = false ∧
      (chunk_message exWord 100 100).flatten ≠ exWord := by
  exact ⟨by decide, by decide⟩

end Shannon
